import Mathlib

/-!
# Verification of the quantumsim core (circuit scheduler, state engine, samplers)

A shallow embedding of the quantumsim repository (src/quantumsim/circuit.py and
src/quantumsim/dm10.py) in Lean 4, together with theorems settling the frozen
claims about its specification.

Modelling conventions:
* Python floats are modelled as exact numbers: scheduling times, probabilities and
  sampler draws by rationals, transfer-matrix entries by reals (square roots and
  exponentials force the real field there).
* The pseudo-random stream of numpy.random.RandomState is modelled as an oracle
  stream of rationals together with a cursor; each draw advances the cursor.
* Fallible constructors return Except; a Python exception corresponds to
  Except.error, so an error value means no object was constructed.
* Code of the repository that is not under src/ (sparsedm.py, tp.py and the CUDA
  kernels of primitives.cu: only their callers are in src/) is modelled from the
  specification; every such definition carries a doc comment saying so.
-/

/- ## Measurement samplers (circuit.py, uniform_sampler / uniform_noisy_sampler)

Both samplers are Python generator coroutines.  After priming, each step receives
a pair of relative probabilities (p0, p1) and yields (declared, projected,
conditional probability).  We embed the post-priming step body; the random draws
rng.random_sample() are the oracle stream rng at cursor k.  The step divides by
p0 + p1, so the embedding returns none exactly when that denominator is zero. -/

/-- Post-priming step of uniform_sampler (circuit.py lines 467-480): draw r; if
r < p0/(p0+p1) yield (0, 0, 1) else (1, 1, 1).  Returns the yielded triple and the
advanced cursor, or none when p0 + p1 = 0 (the source divides by zero there). -/
def uniform_sampler_step (rng : ℕ → ℚ) (k : ℕ) (p0 p1 : ℚ) :
    Option ((ℕ × ℕ × ℚ) × ℕ) :=
  if p0 + p1 = 0 then none
  else if rng k < p0 / (p0 + p1) then some ((0, 0, 1), k + 1)
  else some ((1, 1, 1), k + 1)

/-- Post-priming step of uniform_noisy_sampler (circuit.py lines 482-503): draw r
to choose the projection proj from p0/(p0+p1); draw again, and with probability
readout_error declare 1 - proj with conditional probability readout_error,
otherwise declare proj with conditional probability 1 - readout_error.  Returns
none when p0 + p1 = 0 (the source divides by zero there). -/
def uniform_noisy_sampler_step (readout_error : ℚ) (rng : ℕ → ℚ) (k : ℕ)
    (p0 p1 : ℚ) : Option ((ℕ × ℕ × ℚ) × ℕ) :=
  if p0 + p1 = 0 then none
  else
    let proj : ℕ := if rng k < p0 / (p0 + p1) then 0 else 1
    if rng (k + 1) < readout_error then some ((1 - proj, proj, readout_error), k + 2)
    else some ((proj, proj, 1 - readout_error), k + 2)

/-- Step of selection_sampler (circuit.py lines 458-465): always yields
(result, result, 1) and consumes no randomness. -/
def selection_sampler_step (result : ℕ) (_p0 _p1 : ℚ) : (ℕ × ℕ × ℚ) :=
  (result, result, 1)

/- ## The state engine seen from gate application (sparsedm.SparseDM)

circuit.py applies gates to a sparsedm.SparseDM object, which is not under src/.
Its classical side (register and running probability, spec section 3) is modelled
concretely; its quantum side is an abstract type Q acted on by abstract engine
operations. -/

/-- Modelled from the spec: the SparseDM operations invoked by gate application.
sparsedm.py is not under src/.  peak_measurement is the pure probability query
(spec: peek_probabilities returns (p0, p1) without mutating state);
project_measurement commits the engine in place to one measurement branch; a
named gate method (hadamard, cphase, amp_ph_damping, rotate_y) mutates only the
quantum part, taking its operand qubits and bound parameters. -/
structure EngineOps (Q : Type) where
  peak_measurement : Q → String → ℚ × ℚ
  project_measurement : Q → String → ℕ → Q
  apply_method : Q → String → List String → List (String × ℚ) → Q

/-- The state threaded through gate application: the abstract quantum part, the
classical register (a bit may be absent), and the running classical trajectory
probability (spec section 3, initialized to 1). -/
@[ext]
structure SparseDM (Q : Type) where
  quantum : Q
  classical : String → Option ℕ
  classical_probability : ℚ

/-- sdm.set_bit(bit, value): write a declared value into the classical register. -/
def SparseDM.set_bit {Q : Type} (sdm : SparseDM Q) (bit : String) (v : ℕ) :
    SparseDM Q :=
  { sdm with classical := fun x => if x = bit then some v else sdm.classical x }

/-- Modelled from the spec: sdm.ensure_classical(bit) for a conditional guard is
a consultation of the classical register (spec section 3: the register is
"mutated only by Measurement gate application, consulted by conditional gates"),
so it leaves the state unchanged.  sparsedm.py is not under src/. -/
def SparseDM.ensure_classical {Q : Type} (sdm : SparseDM Q) (_bit : String) :
    SparseDM Q :=
  sdm

/-- Python truthiness of an optional bit name: None and the empty string are
falsy, any other string is truthy. -/
def optTruthy : Option String → Bool
  | some s => !(s == "")
  | none => false

/- ## The Gate base class (circuit.py, Gate) -/

/-- A non-measurement gate: the fields of circuit.Gate plus the dispatch data
(method_name, involved qubit list, bound keyword parameters) that every concrete
subclass sets.  Parameters are name/value pairs of rationals (the one used by the
subclasses in scope is the angle of rotate_y). -/
structure Gate where
  time : ℚ
  conditional_bit : Option String
  involved_qubits : List String
  method_name : String
  method_params : List (String × ℚ)
deriving DecidableEq

/-- Gate.__init__ (circuit.py lines 26-35): record the time and conditional bit;
involved_qubits starts empty and receives the conditional bit first when it is
truthy. -/
def Gate.base (time : ℚ) (conditional_bit : Option String) : Gate :=
  { time := time,
    conditional_bit := conditional_bit,
    involved_qubits := if optTruthy conditional_bit then [conditional_bit.getD ("")] else [],
    method_name := "",
    method_params := [] }

/-- Hadamard.__init__ (circuit.py lines 74-85). -/
def Gate.mkHadamard (bit : String) (time : ℚ) (conditional_bit : Option String) :
    Gate :=
  let g := Gate.base time conditional_bit
  { g with involved_qubits := g.involved_qubits ++ [bit],
           method_name := "hadamard" }

/-- RotateY.__init__ (circuit.py lines 87-105), label computation omitted. -/
def Gate.mkRotateY (bit : String) (time : ℚ) (angle : ℚ)
    (conditional_bit : Option String) : Gate :=
  let g := Gate.base time conditional_bit
  { g with involved_qubits := g.involved_qubits ++ [bit],
           method_name := "rotate_y",
           method_params := [(("angle"), angle)] }

/-- CPhase.__init__ (circuit.py lines 107-117). -/
def Gate.mkCPhase (bit0 bit1 : String) (time : ℚ)
    (conditional_bit : Option String) : Gate :=
  let g := Gate.base time conditional_bit
  { g with involved_qubits := g.involved_qubits ++ [bit0, bit1],
           method_name := "cphase" }

/-- Gate.apply_to (circuit.py lines 63-72): with a conditional bit, ensure it is
classical and only dispatch the bound method on involved_qubits[1:] when the
register holds 1; without one, dispatch on the whole involved_qubits list. -/
def Gate.apply_to {Q : Type} (E : EngineOps Q) (g : Gate) (sdm : SparseDM Q) :
    SparseDM Q :=
  match g.conditional_bit with
  | some b =>
      let sdm := sdm.ensure_classical b
      if sdm.classical b = some 1 then
        { sdm with quantum := (E.apply_method sdm.quantum g.method_name
            (g.involved_qubits.drop 1) g.method_params) }
      else sdm
  | none =>
      { sdm with quantum := (E.apply_method sdm.quantum g.method_name
          g.involved_qubits g.method_params) }

/- ## The Measurement gate (circuit.py, Measurement) -/

/-- The Measurement gate (circuit.py lines 160-207): measured qubit, optional
declared-output and true-output classical bits, the sampler it owns (abstract
state type S) and its append-only log of declared outcomes. -/
structure Measurement (S : Type) where
  bit : String
  output_bit : Option String
  real_output_bit : Option String
  sampler : S
  measurements : List ℕ

/-- Measurement.apply_to (circuit.py lines 226-238), literally in source order:
query peak_measurement; advance the sampler with (p0, p1); append the declared
outcome to the log; if the output bit is truthy, set it to the declared value;
project the engine onto the projected outcome; if the real-output bit is truthy,
set it to the projected value; multiply the running classical probability by the
conditional probability.  The sampler protocol send is abstract: it maps a
sampler state and (p0, p1) to the yielded triple and the successor state. -/
def Measurement.apply_to {Q S : Type} (E : EngineOps Q)
    (send : S → ℚ × ℚ → (ℕ × ℕ × ℚ) × S) (g : Measurement S) (sdm : SparseDM Q) :
    Measurement S × SparseDM Q :=
  let pp := E.peak_measurement sdm.quantum g.bit
  let r := send g.sampler pp
  let declare : ℕ := r.1.1
  let project : ℕ := r.1.2.1
  let cond_prob : ℚ := r.1.2.2
  let g' := { g with sampler := r.2, measurements := g.measurements ++ [declare] }
  let sdm1 := if optTruthy g.output_bit then sdm.set_bit (g.output_bit.getD ("")) declare
              else sdm
  let sdm2 := { sdm1 with quantum := E.project_measurement sdm1.quantum g.bit project }
  let sdm3 := if optTruthy g.real_output_bit then
                sdm2.set_bit (g.real_output_bit.getD ("")) project
              else sdm2
  (g', { sdm3 with classical_probability := sdm3.classical_probability * cond_prob })

/- ## Density constructor validation (dm10.py, Density.__init__) -/

/-- The possible values of the data argument of Density.__init__: a dense numpy
ndarray with its shape, a GPU array with its size and dtype flag, None, or a
value of any other type. -/
inductive DensityData
  | ndarray (rows cols : ℕ)
  | gpuarray (size : ℕ) (float64 : Bool)
  | nodata
  | other
deriving DecidableEq

/-- The fields of a constructed Density relevant to validation: the qubit count
and the length 4^no_qubits of the flat coefficient array. -/
structure DensityState where
  no_qubits : ℕ
  size : ℕ
deriving DecidableEq

/-- Density.__init__ (dm10.py lines 120-165).  The sizes are computed first, then
no_qubits > 15 raises ValueError; then the data argument is dispatched on its
type: an ndarray must have shape (2^n, 2^n) (assert), a GPU array must have size
4^n and dtype float64 (assert), None builds the ground state, and any other type
raises ValueError.  An Except.error result models the exception propagating out
of __init__, so that no Density object is obtained. -/
def Density.init (no_qubits : ℕ) (data : DensityData) : Except String DensityState :=
  let size := 2 ^ (2 * no_qubits)
  if 15 < no_qubits then
    Except.error ("ValueError: no_qubits is way too many qubits, are you sure?")
  else
    match data with
    | DensityData.ndarray r c =>
        if r = 2 ^ no_qubits ∧ c = 2 ^ no_qubits then Except.ok ⟨no_qubits, size⟩
        else Except.error ("AssertionError: data.shape == (1 << no_qubits, 1 << no_qubits)")
    | DensityData.gpuarray s f64 =>
        if s = size ∧ f64 = true then Except.ok ⟨no_qubits, size⟩
        else Except.error ("AssertionError: data.size == self._size and data.dtype == np.float64")
    | DensityData.nodata => Except.ok ⟨no_qubits, size⟩
    | DensityData.other => Except.error ("ValueError: type of data not understood")

/- ## Qubits and the circuit-level view of gates (circuit.py, Qubit / Circuit) -/

/-- circuit.Qubit: a name and coherence times t1, t2.  np.inf is modelled as
none; finite times are floored at 1e-10 by the constructor. -/
structure Qubit where
  name : String
  t1 : Option ℚ
  t2 : Option ℚ
deriving DecidableEq

/-- Qubit.__init__ (circuit.py lines 14-20): t1 and t2 are floored at 1e-10
(max with infinity stays infinity). -/
def Qubit.make (name : String) (t1 t2 : Option ℚ) : Qubit :=
  ⟨name, t1.map (fun t => max t (1 / 10 ^ 10)), t2.map (fun t => max t (1 / 10 ^ 10))⟩

/-- What the scheduler needs to know of a gate's identity: damping gates carry
their duration and coherence times, measurement gates are flagged, all other
variants are bundled as unitary. -/
inductive GateKind
  | unitary
  | amp_ph_damp (duration : ℚ) (t1 t2 : Option ℚ)
  | measurement
deriving DecidableEq

/-- The circuit-level view of a gate: its scheduling time, the involved qubit
names, and its kind. -/
structure CGate where
  time : ℚ
  involved_qubits : List String
  kind : GateKind
deriving DecidableEq

/-- The is_measurement flag set by Gate.__init__ / Measurement.__init__. -/
def CGate.is_measurement (g : CGate) : Bool :=
  match g.kind with
  | GateKind.measurement => true
  | _ => false

/-- AmpPhDamp.__init__ (circuit.py lines 130-149) as seen by the scheduler: a
single-qubit gate at the given time carrying duration and the qubit's coherence
times.  Its bound damping parameters gamma and lamda are the derived real values
damp_gamma and damp_lamda below. -/
def CGate.mkAmpPhDamp (bit : String) (time duration : ℚ) (t1 t2 : Option ℚ) : CGate :=
  ⟨time, [bit], GateKind.amp_ph_damp duration t1 t2⟩

/-- The gamma parameter bound by AmpPhDamp.__init__: 1 - e^(-duration/t1).
For t1 = np.inf (none) the source computes duration/inf = 0, so gamma = 0. -/
noncomputable def damp_gamma (duration : ℚ) (t1 : Option ℚ) : ℝ :=
  match t1 with
  | none => 0
  | some t => 1 - Real.exp (-((duration : ℝ) / (t : ℝ)))

/-- The lamda parameter bound by AmpPhDamp.__init__: 1 - e^(-duration/t2). -/
noncomputable def damp_lamda (duration : ℚ) (t2 : Option ℚ) : ℝ :=
  match t2 with
  | none => 0
  | some t => 1 - Real.exp (-((duration : ℝ) / (t : ℝ)))

/-- circuit.Circuit: an ordered list of qubits and an ordered list of gates. -/
structure Circuit where
  qubits : List Qubit
  gates : List CGate
deriving DecidableEq

/-- sorted(self.gates, key=lambda g: g.time): a stable sort by time (Python's
sorted is stable; insertion sort by a total preorder is the same stable sort). -/
def sort_gates (l : List CGate) : List CGate :=
  l.insertionSort (fun a b => a.time ≤ b.time)

/-- The default window start used by add_waiting_gates when tmin is not given:
the time of the first gate of the time-sorted gate list (circuit.py line 326). -/
def default_tmin (c : Circuit) : ℚ :=
  ((sort_gates c.gates).head?.map CGate.time).getD 0

/-- The default window end used by add_waiting_gates when tmax is not given:
the time of the last gate of the time-sorted gate list (circuit.py line 328). -/
def default_tmax (c : Circuit) : ℚ :=
  ((sort_gates c.gates).getLast?.map CGate.time).getD 0

/-- The per-qubit gate selection of add_waiting_gates (circuit.py lines 337-338):
the gates involving the qubit whose time lies in [tmin, tmax], in time order. -/
def gates_in_window (all_gates : List CGate) (name : String) (tmin tmax : ℚ) :
    List CGate :=
  all_gates.filter (fun g => g.involved_qubits.contains name
    && decide (tmin ≤ g.time) && decide (g.time ≤ tmax))

/-- The damping gates synthesized for one qubit (circuit.py lines 340-364): if
the qubit has no gate in the window, one gate spanning it; otherwise a gate for
the gap before the first and after the last gate when longer than 1e-6, and one
gate for each gap between consecutive gates. -/
def waiting_gates_for (b : Qubit) (gts : List CGate) (tmin tmax : ℚ) : List CGate :=
  match gts with
  | [] => [CGate.mkAmpPhDamp b.name ((tmax + tmin) / 2) (tmax - tmin) b.t1 b.t2]
  | g0 :: rest =>
      let glast := ((g0 :: rest).getLast?).getD g0
      (if g0.time - tmin > 1 / 1000000 then
         [CGate.mkAmpPhDamp b.name ((g0.time + tmin) / 2) (g0.time - tmin) b.t1 b.t2]
       else [])
      ++ (if tmax - glast.time > 1 / 1000000 then
         [CGate.mkAmpPhDamp b.name ((glast.time + tmax) / 2) (tmax - glast.time) b.t1 b.t2]
       else [])
      ++ ((g0 :: rest).zip rest).map (fun p =>
           CGate.mkAmpPhDamp b.name ((p.1.time + p.2.time) / 2) (p.2.time - p.1.time)
             b.t1 b.t2)

/-- Circuit.add_waiting_gates (circuit.py lines 309-364).  When there are no
gates and a window bound is missing, return unchanged.  Defaults for the window
come from the first/last gate of the whole time-sorted gate list.  The relevant
qubits are those with finite t1 or t2, filtered by only_qubits when that list is
truthy (non-empty).  The synthesized gates are appended in qubit order. -/
def add_waiting_gates (c : Circuit) (tmin? tmax? : Option ℚ)
    (only_qubits : Option (List String)) : Circuit :=
  let all_gates := sort_gates c.gates
  if all_gates.isEmpty ∧ (tmin? = none ∨ tmax? = none) then c
  else
    let tmin := tmin?.getD (default_tmin c)
    let tmax := tmax?.getD (default_tmax c)
    let qtd := c.qubits.filter (fun qb => qb.t1.isSome || qb.t2.isSome)
    let qtd := match only_qubits with
      | some names => if names.isEmpty then qtd
                      else qtd.filter (fun qb => names.contains qb.name)
      | none => qtd
    { c with gates := c.gates ++ qtd.flatMap (fun b =>
        waiting_gates_for b (gates_in_window all_gates b.name tmin tmax) tmin tmax) }

/-- Modelled from the spec, for comparison with add_waiting_gates (claim C6):
identical to it except that the missing window bounds default to the
earliest/latest gate time among the gates of the relevant qubits (the qubits
with finite t1 or t2, restricted to only_qubits when given) instead of among all
gates of the circuit. -/
def add_waiting_gates_claimed (c : Circuit) (tmin? tmax? : Option ℚ)
    (only_qubits : Option (List String)) : Circuit :=
  let qtd := c.qubits.filter (fun qb => qb.t1.isSome || qb.t2.isSome)
  let qtd := match only_qubits with
    | some names => if names.isEmpty then qtd
                    else qtd.filter (fun qb => names.contains qb.name)
    | none => qtd
  let relevant := sort_gates (c.gates.filter (fun g =>
    qtd.any (fun qb => g.involved_qubits.contains qb.name)))
  if relevant.isEmpty ∧ (tmin? = none ∨ tmax? = none) then c
  else
    let tmin := tmin?.getD ((relevant.head?.map CGate.time).getD 0)
    let tmax := tmax?.getD ((relevant.getLast?.map CGate.time).getD 0)
    let all_gates := sort_gates c.gates
    { c with gates := c.gates ++ qtd.flatMap (fun b =>
        waiting_gates_for b (gates_in_window all_gates b.name tmin tmax) tmin tmax) }

/- ## The dependency graph built by Circuit.order (circuit.py lines 366-394) -/

/-- Whether the gate at position n of the time-sorted gate list involves the
given qubit name (all_gates = list(enumerate(sorted(...)))). -/
def involves_at (c : Circuit) (n : ℕ) (name : String) : Bool :=
  match (sort_gates c.gates)[n]? with
  | some g => g.involved_qubits.contains name
  | none => false

/-- gts for one qubit in Circuit.order: the positions, in increasing order, of
the time-sorted gates involving that qubit. -/
def qubit_gate_idx (c : Circuit) (name : String) : List ℕ :=
  (List.range (sort_gates c.gates).length).filter (fun n => involves_at c n name)

/-- The dependency edges built by Circuit.order: for every qubit of the circuit,
an edge (g1, g2) for each consecutive pair of the qubit's gate positions
(dependencies[g2] |= {g1}). -/
def dep_edges (c : Circuit) : List (ℕ × ℕ) :=
  c.qubits.flatMap (fun b =>
    (qubit_gate_idx c b.name).zip (qubit_gate_idx c b.name).tail)

/-- The measurement positions collected by Circuit.order (line 377). -/
def measurement_idx (c : Circuit) : List ℕ :=
  (List.range (sort_gates c.gates).length).filter (fun n =>
    match (sort_gates c.gates)[n]? with
    | some g => g.is_measurement
    | none => false)

/-- Circuit.order up to the call tp.greedy_toposort(dependencies,
set(measurements)): the dependency graph and the high-priority set handed to the
topological sort.  tp.py is not under src/, so the sort itself is an external
consumer of exactly this input. -/
def greedy_toposort_input (c : Circuit) : List (ℕ × ℕ) × List ℕ :=
  (dep_edges c, measurement_idx c)

/- ## Basis transform math (dm10.py lines 59-112) -/

/-- The fixed change-of-basis matrix t of to_0xy1_basis (dm10.py lines 70-73). -/
noncomputable def basis_t : Matrix (Fin 4) (Fin 4) ℝ :=
  !![Real.sqrt (1 / 2), 0, 0, Real.sqrt (1 / 2);
     0, 1, 0, 0;
     0, 0, 1, 0;
     Real.sqrt (1 / 2), 0, 0, -Real.sqrt (1 / 2)]

/-- to_0xy1_basis on a full 4x4 transfer matrix (dm10.py line 75): t . ptm . t.
The 3x3 and 3x4 padding branches only serve the Bloch-rotation builders and are
not needed by the claims. -/
noncomputable def to_0xy1_basis (ptm : Matrix (Fin 4) (Fin 4) ℝ) :
    Matrix (Fin 4) (Fin 4) ℝ :=
  basis_t * ptm * basis_t

/-- hadamard_ptm (dm10.py lines 78-82). -/
noncomputable def hadamard_ptm : Matrix (Fin 4) (Fin 4) ℝ :=
  !![1 / 2, Real.sqrt (1 / 2), 0, 1 / 2;
     Real.sqrt (1 / 2), 0, 0, -Real.sqrt (1 / 2);
     0, 0, -1, 0;
     1 / 2, -Real.sqrt (1 / 2), 0, 1 / 2]

/-- amp_ph_damping_ptm (dm10.py lines 85-92): the damping transfer matrix in the
standard ordering, pushed through to_0xy1_basis. -/
noncomputable def amp_ph_damping_ptm (gamma lamda : ℝ) : Matrix (Fin 4) (Fin 4) ℝ :=
  to_0xy1_basis
    !![1, 0, 0, 0;
       0, Real.sqrt ((1 - gamma) * (1 - lamda)), 0, 0;
       0, 0, Real.sqrt ((1 - gamma) * (1 - lamda)), 0;
       gamma, 0, 0, 1 - gamma]

/- ## The quantum state acted on by single- and two-qubit operations

Density stores an n-qubit state as 4^n real coefficients with one 4-valued axis
per qubit; we index them by functions Fin n -> Fin 4.  The kernels applying
operators to this array (primitives.cu) are not under src/; their algorithms are
modelled from the spec. -/

/-- Modelled from the spec: Density.apply_ptm / the single_qubit_ptm kernel
(primitives.cu is not under src/) applies the resident 4x4 transfer matrix along
the target qubit's axis, leaving the other axes untouched (spec section 4.3,
apply_single_qubit_channel). -/
noncomputable def apply_ptm {n : ℕ} (ptm : Matrix (Fin 4) (Fin 4) ℝ) (bit : Fin n)
    (v : (Fin n → Fin 4) → ℝ) : (Fin n → Fin 4) → ℝ :=
  fun idx => ∑ k : Fin 4, ptm (idx bit) k * v (Function.update idx bit k)

/-- Density.hadamard (dm10.py lines 258-260): apply hadamard_ptm to the qubit. -/
noncomputable def Density.hadamard {n : ℕ} (bit : Fin n)
    (v : (Fin n → Fin 4) → ℝ) : (Fin n → Fin 4) → ℝ :=
  apply_ptm hadamard_ptm bit v

/-- Density.amp_ph_damping (dm10.py lines 262-264). -/
noncomputable def Density.amp_ph_damping {n : ℕ} (bit : Fin n) (gamma lamda : ℝ)
    (v : (Fin n → Fin 4) → ℝ) : (Fin n → Fin 4) → ℝ :=
  apply_ptm (amp_ph_damping_ptm gamma lamda) bit v

/-- The basis-label pairs whose coefficients the cphase kernel negates: the spec
(section 4.3) describes cphase as a sign flip where the two qubits carry the
cross-term labels (y, y), (y, x) and (x, y) of the 0xy1 ordering 0, x, y, 1. -/
def cphase_flip (a b : Fin 4) : Bool :=
  (a == 2 && b == 2) || (a == 2 && b == 1) || (a == 1 && b == 2)

/-- Modelled from the spec: Density.cphase (dm10.py lines 223-233) launches the
cphase kernel (primitives.cu is not under src/), a conditional sign
multiplication on the flagged label pairs of the two qubits' axes. -/
noncomputable def Density.cphase {n : ℕ} (bit0 bit1 : Fin n)
    (v : (Fin n → Fin 4) → ℝ) : (Fin n → Fin 4) → ℝ :=
  fun idx => if cphase_flip (idx bit0) (idx bit1) then -v idx else v idx

/- ## Claim theorems -/

/-- C2: the Density constructor rejects no_qubits > 15 with a validation error
before touching the data (so no engine is constructed), rejects a dense matrix
whose shape is not (2^n, 2^n), and rejects a data source that is neither a dense
matrix, correctly-sized native data, nor absent, with a validation error. -/
theorem c2_density_constructor_validation (n : ℕ) (d : DensityData) :
    (15 < n →
      Density.init n d
        = Except.error ("ValueError: no_qubits is way too many qubits, are you sure?"))
    ∧ (∀ r c, d = DensityData.ndarray r c → ¬(r = 2 ^ n ∧ c = 2 ^ n) → n ≤ 15 →
        Density.init n d
          = Except.error ("AssertionError: data.shape == (1 << no_qubits, 1 << no_qubits)"))
    ∧ (d = DensityData.other → n ≤ 15 →
        Density.init n d = Except.error ("ValueError: type of data not understood")) := by
  refine ⟨fun h => ?_, fun r c hd hshape hn => ?_, fun hd hn => ?_⟩
  · simp [Density.init, h]
  · subst hd
    have h15 : ¬ 15 < n := by omega
    simp [Density.init, h15, hshape]
  · subst hd
    have h15 : ¬ 15 < n := by omega
    simp [Density.init, h15]

/-- Witness for C2: the three rejections at concrete inputs. -/
theorem c2_density_constructor_validation_witness :
    Density.init 16 DensityData.nodata
      = Except.error ("ValueError: no_qubits is way too many qubits, are you sure?")
    ∧ Density.init 2 (DensityData.ndarray 4 8)
      = Except.error ("AssertionError: data.shape == (1 << no_qubits, 1 << no_qubits)")
    ∧ Density.init 2 DensityData.other
      = Except.error ("ValueError: type of data not understood") :=
  ⟨(c2_density_constructor_validation 16 DensityData.nodata).1 (by norm_num),
   (c2_density_constructor_validation 2 (DensityData.ndarray 4 8)).2.1 4 8 rfl
     (by norm_num) (by norm_num),
   (c2_density_constructor_validation 2 DensityData.other).2.2 rfl (by norm_num)⟩

/-- C5 counterexample: with readout_error = 1/4 and both draws 0, the noisy
sampler step flips the declared value (declares 1 while projecting 0) and
returns conditional probability 1/4 = readout_error, whereas the claim demands
1 - readout_error = 3/4 for a flipped declaration. -/
theorem c5_noisy_prob_counterexample :
    uniform_noisy_sampler_step (1 / 4) (fun _ => 0) 0 1 1 = some ((1, 0, 1 / 4), 2)
    ∧ (1 : ℚ) / 4 ≠ 1 - 1 / 4 := by
  constructor
  · norm_num [uniform_noisy_sampler_step]
  · norm_num

/-- C5 (amended): in every step of the noisy Monte Carlo sampler, the returned
conditional probability is readout_error when the declared value was flipped
away from the true projection, and 1 - readout_error when it was not flipped. -/
theorem c5_noisy_prob_amended (re : ℚ) (rng : ℕ → ℚ) (k : ℕ) (p0 p1 : ℚ)
    (decl proj : ℕ) (prob : ℚ) (k' : ℕ)
    (h : uniform_noisy_sampler_step re rng k p0 p1 = some ((decl, proj, prob), k')) :
    (decl ≠ proj → prob = re) ∧ (decl = proj → prob = 1 - re) := by
  unfold uniform_noisy_sampler_step at h
  split_ifs at h <;>
    · simp only [Option.some.injEq, Prod.mk.injEq] at h
      obtain ⟨⟨hd, hpj, hpr⟩, -⟩ := h
      subst hd
      subst hpj
      subst hpr
      constructor <;> intro hx <;> simp_all

/-- Witness for C5 (amended), at the same concrete step as the counterexample. -/
theorem c5_noisy_prob_amended_witness :
    ((1 : ℕ) ≠ 0 → (1 : ℚ) / 4 = 1 / 4) ∧ ((1 : ℕ) = 0 → (1 : ℚ) / 4 = 1 - 1 / 4) :=
  c5_noisy_prob_amended (1 / 4) (fun _ => 0) 0 1 1 1 0 (1 / 4) 2
    (by norm_num [uniform_noisy_sampler_step])

/-- C10: both Monte Carlo sampler steps compute the Bernoulli parameter
p0 / (p0 + p1); for non-negative inputs with positive sum the step is defined and
the parameter lies in [0, 1], while at p0 = p1 = 0 the step hits a zero
denominator (modelled as none). -/
theorem c10_sampler_zero_denominator (re : ℚ) (rng : ℕ → ℚ) (k : ℕ) (p0 p1 : ℚ) :
    (0 ≤ p0 → 0 ≤ p1 → 0 < p0 + p1 →
      (uniform_sampler_step rng k p0 p1).isSome = true
      ∧ (uniform_noisy_sampler_step re rng k p0 p1).isSome = true
      ∧ 0 ≤ p0 / (p0 + p1) ∧ p0 / (p0 + p1) ≤ 1)
    ∧ uniform_sampler_step rng k 0 0 = none
    ∧ uniform_noisy_sampler_step re rng k 0 0 = none := by
  refine ⟨fun hp0 hp1 hs => ?_, by simp [uniform_sampler_step],
    by simp [uniform_noisy_sampler_step]⟩
  have hne : p0 + p1 ≠ 0 := ne_of_gt hs
  refine ⟨?_, ?_, div_nonneg hp0 (le_of_lt hs), ?_⟩
  · unfold uniform_sampler_step
    split_ifs <;> simp_all
  · unfold uniform_noisy_sampler_step
    split_ifs <;> simp_all
  · rw [div_le_one hs]
    linarith

/-- Witness for C10 at p0 = p1 = 1 (and the zero-denominator inputs). -/
theorem c10_sampler_zero_denominator_witness :
    ((uniform_sampler_step (fun _ => 0) 0 1 1).isSome = true
      ∧ (uniform_noisy_sampler_step (1 / 2) (fun _ => 0) 0 1 1).isSome = true
      ∧ 0 ≤ (1 : ℚ) / (1 + 1) ∧ (1 : ℚ) / (1 + 1) ≤ 1)
    ∧ uniform_sampler_step (fun _ => 0) 0 0 0 = none
    ∧ uniform_noisy_sampler_step (1 / 2) (fun _ => 0) 0 0 0 = none :=
  ⟨(c10_sampler_zero_denominator (1 / 2) (fun _ => 0) 0 1 1).1
      (by norm_num) (by norm_num) (by norm_num),
   (c10_sampler_zero_denominator (1 / 2) (fun _ => 0) 0 1 1).2.1,
   (c10_sampler_zero_denominator (1 / 2) (fun _ => 0) 0 1 1).2.2⟩

/-- C4: a non-measurement gate whose conditional bit is set (and therefore
heads its involved-qubit list) reads the classical register for that bit; when
the bit holds 1 the bound method is dispatched on the involved qubits with the
guard dropped, and when it holds 0 the state engine is left unchanged. -/
theorem c4_conditional_gate_dispatch {Q : Type} (E : EngineOps Q) (g : Gate)
    (sdm : SparseDM Q) (b : String) (ops : List String)
    (hc : g.conditional_bit = some b)
    (hi : g.involved_qubits = b :: ops) :
    (sdm.classical b = some 1 →
      Gate.apply_to E g sdm
        = { sdm with quantum := E.apply_method sdm.quantum g.method_name ops g.method_params })
    ∧ (sdm.classical b = some 0 → Gate.apply_to E g sdm = sdm) := by
  constructor
  · intro h1
    simp [Gate.apply_to, hc, SparseDM.ensure_classical, h1, hi]
  · intro h0
    simp [Gate.apply_to, hc, SparseDM.ensure_classical, h0]

/-- A concrete state engine over ℕ quantum states, used to instantiate the
abstract-engine theorems on concrete inputs. -/
def test_engine : EngineOps ℕ :=
  ⟨fun _ _ => (1 / 2, 1 / 2), fun q _ o => q + 10 * o + 1, fun q _ _ _ => q + 100⟩

/-- Witness for C4: a Hadamard gate guarded by bit c, applied once with the bit
at 1 (method dispatched without the guard) and once with it at 0 (no change). -/
theorem c4_conditional_gate_dispatch_witness :
    (Gate.apply_to test_engine (Gate.mkHadamard ("q") 0 (some ("c")))
        ⟨0, fun x => if x = ("c") then some 1 else none, 1⟩
      = { quantum := test_engine.apply_method 0
            ((Gate.mkHadamard ("q") 0 (some ("c"))).method_name) [("q")]
            ((Gate.mkHadamard ("q") 0 (some ("c"))).method_params),
          classical := fun x => if x = ("c") then some 1 else none,
          classical_probability := 1 })
    ∧ (Gate.apply_to test_engine (Gate.mkHadamard ("q") 0 (some ("c")))
        ⟨0, fun x => if x = ("c") then some 0 else none, 1⟩
      = ⟨0, fun x => if x = ("c") then some 0 else none, 1⟩) :=
  ⟨(c4_conditional_gate_dispatch test_engine (Gate.mkHadamard ("q") 0 (some ("c")))
      ⟨0, fun x => if x = ("c") then some 1 else none, 1⟩ ("c") [("q")] rfl
      (by simp [Gate.mkHadamard, Gate.base, optTruthy])).1 (by simp),
   (c4_conditional_gate_dispatch test_engine (Gate.mkHadamard ("q") 0 (some ("c")))
      ⟨0, fun x => if x = ("c") then some 0 else none, 1⟩ ("c") [("q")] rfl
      (by simp [Gate.mkHadamard, Gate.base, optTruthy])).2 (by simp)⟩

/-- C1: Measurement.apply_to equals the in-order composition of the specified
steps: the probability query leaves the engine untouched (the projection acts on
the original quantum state), the sampler is advanced with (p0, p1), the declared
outcome is appended to the log, the declared value is written to the output bit
when set, the engine is projected onto the projected outcome, the projected
value is written to the real-output bit when set (after the declared write), and
the running classical probability is multiplied by the conditional probability. -/
theorem c1_measurement_apply_to_steps {Q S : Type} (E : EngineOps Q)
    (send : S → ℚ × ℚ → (ℕ × ℕ × ℚ) × S) (g : Measurement S) (sdm : SparseDM Q)
    (p0 p1 : ℚ) (d pj : ℕ) (cp : ℚ) (s' : S)
    (hpeek : E.peak_measurement sdm.quantum g.bit = (p0, p1))
    (hsend : send g.sampler (p0, p1) = ((d, pj, cp), s')) :
    Measurement.apply_to E send g sdm =
      ({ g with sampler := s', measurements := g.measurements ++ [d] },
       { quantum := E.project_measurement sdm.quantum g.bit pj,
         classical := fun x =>
           if optTruthy g.real_output_bit = true ∧ x = g.real_output_bit.getD ("") then
             some pj
           else if optTruthy g.output_bit = true ∧ x = g.output_bit.getD ("") then
             some d
           else sdm.classical x,
         classical_probability := sdm.classical_probability * cp }) := by
  unfold Measurement.apply_to
  simp only [hpeek, hsend]
  refine Prod.ext rfl ?_
  cases hob : optTruthy g.output_bit <;> cases hrb : optTruthy g.real_output_bit <;>
    · refine SparseDM.ext ?_ ?_ ?_
      · simp [hob, hrb, SparseDM.set_bit]
      · funext x
        by_cases hx1 : x = g.real_output_bit.getD ("") <;>
          by_cases hx2 : x = g.output_bit.getD ("") <;>
          simp [hob, hrb, SparseDM.set_bit, hx1, hx2]
      · simp [hob, hrb, SparseDM.set_bit]

/-- Witness for C1: a concrete measurement of qubit m with both output bits set,
over the concrete test engine and a sampler that declares 0, projects 1 with
conditional probability 1/2. -/
theorem c1_measurement_apply_to_steps_witness :
    Measurement.apply_to test_engine (fun (s : ℕ) (_ : ℚ × ℚ) => ((0, 1, 1 / 2), s + 1))
        ⟨("m"), some ("ob"), some ("rb"), 7, [1]⟩ ⟨3, fun _ => none, 1⟩
      = (⟨("m"), some ("ob"), some ("rb"), 8, [1, 0]⟩,
         { quantum := test_engine.project_measurement 3 ("m") 1,
           classical := fun x =>
             if optTruthy (some ("rb")) = true ∧ x = (some ("rb")).getD ("") then some 1
             else if optTruthy (some ("ob")) = true ∧ x = (some ("ob")).getD ("") then some 0
             else none,
           classical_probability := 1 * (1 / 2) }) :=
  c1_measurement_apply_to_steps test_engine
    (fun (s : ℕ) (_ : ℚ × ℚ) => ((0, 1, 1 / 2), s + 1))
    ⟨("m"), some ("ob"), some ("rb"), 7, [1]⟩ ⟨3, fun _ => none, 1⟩
    (1 / 2) (1 / 2) 0 1 (1 / 2) 8 rfl rfl

/-- The square of np.sqrt(0.5). -/
theorem sqrt_half_mul_self : Real.sqrt (1 / 2) * Real.sqrt (1 / 2) = 1 / 2 :=
  Real.mul_self_sqrt (by norm_num)

/-- The change-of-basis matrix t is an involution (it is symmetric orthogonal). -/
theorem inv_sqrt_two_mul_self : (Real.sqrt 2)⁻¹ * (Real.sqrt 2)⁻¹ = 1 / 2 := by
  rw [← mul_inv, Real.mul_self_sqrt (by norm_num : (0 : ℝ) ≤ 2)]
  norm_num

theorem inv_sqrt_two_sum_mul : ((Real.sqrt 2)⁻¹ + (Real.sqrt 2)⁻¹) * (Real.sqrt 2)⁻¹ = 1 := by
  nlinarith [inv_sqrt_two_mul_self]

theorem basis_t_mul_self : basis_t * basis_t = 1 := by
  ext i j
  fin_cases i <;> fin_cases j <;>
    simp [basis_t, Matrix.mul_apply, Fin.sum_univ_four, Matrix.one_apply] <;>
    norm_num [inv_sqrt_two_mul_self, Matrix.vecHead, Matrix.vecTail]

/-- The Hadamard transfer matrix squares to the identity. -/
theorem hadamard_ptm_mul_self : hadamard_ptm * hadamard_ptm = 1 := by
  ext i j
  fin_cases i <;> fin_cases j <;>
    simp [hadamard_ptm, Matrix.mul_apply, Fin.sum_univ_four, Matrix.one_apply] <;>
    norm_num [inv_sqrt_two_mul_self, Matrix.vecHead, Matrix.vecTail]

/-- Applying two transfer matrices along the same qubit axis composes them. -/
theorem apply_ptm_apply_ptm {n : ℕ} (M N : Matrix (Fin 4) (Fin 4) ℝ) (bit : Fin n)
    (v : (Fin n → Fin 4) → ℝ) :
    apply_ptm M bit (apply_ptm N bit v) = apply_ptm (M * N) bit v := by
  funext idx
  simp only [apply_ptm, Function.update_same, Function.update_idem, Matrix.mul_apply,
    Finset.sum_mul, Finset.mul_sum, mul_assoc]
  exact Finset.sum_comm

/-- Applying the identity transfer matrix changes nothing. -/
theorem apply_ptm_one {n : ℕ} (bit : Fin n) (v : (Fin n → Fin 4) → ℝ) :
    apply_ptm 1 bit v = v := by
  funext idx
  simp [apply_ptm, Matrix.one_apply, Function.update_eq_self]

/-- C8: applying the Hadamard operation twice to the same qubit of any state
returns the state to its prior value, and applying CPhase twice to the same
qubit pair is the identity. -/
theorem c8_hadamard_cphase_self_inverse {n : ℕ} (bit b0 b1 : Fin n)
    (v : (Fin n → Fin 4) → ℝ) :
    Density.hadamard bit (Density.hadamard bit v) = v
    ∧ Density.cphase b0 b1 (Density.cphase b0 b1 v) = v := by
  constructor
  · rw [Density.hadamard, Density.hadamard, apply_ptm_apply_ptm, hadamard_ptm_mul_self,
      apply_ptm_one]
  · funext idx
    simp only [Density.cphase]
    by_cases hf : cphase_flip (idx b0) (idx b1) = true <;> simp [hf]

/-- C7: the amplitude/phase damping channel builder yields the identity transfer
matrix at gamma = lamda = 0, and at gamma = 1 it sends any input coefficient
vector to one whose ground population carries the whole trace and whose other
components vanish, independently of lamda. -/
theorem c7_amp_ph_damping_boundary :
    amp_ph_damping_ptm 0 0 = 1
    ∧ ∀ (lamda : ℝ) (v : Fin 4 → ℝ),
        (amp_ph_damping_ptm 1 lamda).mulVec v = ![v 0 + v 3, 0, 0, 0] := by
  constructor
  · have hmat : (!![1, 0, 0, 0;
       0, Real.sqrt ((1 - 0) * (1 - 0)), 0, 0;
       0, 0, Real.sqrt ((1 - 0) * (1 - 0)), 0;
       (0 : ℝ), 0, 0, 1 - 0] : Matrix (Fin 4) (Fin 4) ℝ) = 1 := by
      ext i j
      fin_cases i <;> fin_cases j <;>
        norm_num [Matrix.one_apply, Matrix.vecHead, Matrix.vecTail, Fin.ext_iff]
    rw [amp_ph_damping_ptm, to_0xy1_basis, hmat, Matrix.mul_one, basis_t_mul_self]
  · intro lamda v
    have h0 : Real.sqrt ((1 - 1) * (1 - lamda)) = 0 := by
      norm_num
    have hmat : amp_ph_damping_ptm 1 lamda
        = !![1, 0, 0, 1; 0, 0, 0, 0; 0, 0, 0, 0; 0, 0, 0, 0] := by
      rw [amp_ph_damping_ptm, to_0xy1_basis]
      ext i j
      fin_cases i <;> fin_cases j <;>
        simp [basis_t, Matrix.mul_apply, Fin.sum_univ_four, h0] <;>
        norm_num [inv_sqrt_two_mul_self, inv_sqrt_two_sum_mul, Matrix.vecHead,
          Matrix.vecTail]
    rw [hmat]
    funext i
    fin_cases i <;>
      simp [Matrix.mulVec, Matrix.dotProduct, Fin.sum_univ_four, Matrix.vecHead,
        Matrix.vecTail]

/-- C3: in a circuit whose only qubit has t1 = 100, t2 = 200 and whose only two
gates act on it at times 0 and 10, add_waiting_gates(tmin = 0, tmax = 10) appends
exactly one damping gate on that qubit, at time 5 with duration 10, whose bound
parameters are gamma = 1 - e^(-1/10) and lamda = 1 - e^(-1/20). -/
theorem c3_waiting_gate_between_two_gates (g0 g1 : CGate) (c : Circuit)
    (hq : c.qubits = [Qubit.make ("q") (some 100) (some 200)])
    (hg : c.gates = [g0, g1])
    (h0t : g0.time = 0) (h1t : g1.time = 10)
    (h0i : ("q") ∈ g0.involved_qubits) (h1i : ("q") ∈ g1.involved_qubits) :
    (add_waiting_gates c (some 0) (some 10) none).gates
      = c.gates ++ [CGate.mkAmpPhDamp ("q") 5 10 (some 100) (some 200)]
    ∧ damp_gamma 10 (some 100) = 1 - Real.exp (-(1 / 10))
    ∧ damp_lamda 10 (some 200) = 1 - Real.exp (-(1 / 20)) := by
  refine ⟨?_, ?_, ?_⟩
  · have hmax1 : max (100 : ℚ) (1 / 10 ^ 10) = 100 := by norm_num
    have hmax2 : max (200 : ℚ) (1 / 10 ^ 10) = 200 := by norm_num
    norm_num [add_waiting_gates, sort_gates, List.insertionSort, List.orderedInsert,
      default_tmin, default_tmax, gates_in_window, waiting_gates_for, Qubit.make,
      CGate.mkAmpPhDamp, List.filter_cons, hq, hg, h0t, h1t, h0i, h1i, hmax1, hmax2]
  · norm_num [damp_gamma]
  · norm_num [damp_lamda]

/-- Witness for C3 at a fully concrete circuit. -/
theorem c3_waiting_gate_between_two_gates_witness :
    (add_waiting_gates
        ⟨[Qubit.make ("q") (some 100) (some 200)],
         [⟨0, [("q")], GateKind.unitary⟩, ⟨10, [("q")], GateKind.unitary⟩]⟩
        (some 0) (some 10) none).gates
      = [⟨0, [("q")], GateKind.unitary⟩, ⟨10, [("q")], GateKind.unitary⟩]
          ++ [CGate.mkAmpPhDamp ("q") 5 10 (some 100) (some 200)]
    ∧ damp_gamma 10 (some 100) = 1 - Real.exp (-(1 / 10))
    ∧ damp_lamda 10 (some 200) = 1 - Real.exp (-(1 / 20)) :=
  c3_waiting_gate_between_two_gates
    ⟨0, [("q")], GateKind.unitary⟩ ⟨10, [("q")], GateKind.unitary⟩
    ⟨[Qubit.make ("q") (some 100) (some 200)],
     [⟨0, [("q")], GateKind.unitary⟩, ⟨10, [("q")], GateKind.unitary⟩]⟩
    rfl rfl rfl rfl (by simp) (by simp)

instance : IsTotal CGate (fun a b => a.time ≤ b.time) :=
  ⟨fun a b => le_total a.time b.time⟩

instance : IsTrans CGate (fun a b => a.time ≤ b.time) :=
  ⟨fun _ _ _ => le_trans⟩

/-- sort_gates sorts by time. -/
theorem sort_gates_sorted (l : List CGate) :
    List.Sorted (fun a b : CGate => a.time ≤ b.time) (sort_gates l) :=
  List.sorted_insertionSort _ l

/-- sort_gates permutes the gate list. -/
theorem sort_gates_perm (l : List CGate) : List.Perm (sort_gates l) l :=
  List.perm_insertionSort _ l

/-- In a time-sorted gate list, every member's time is bounded by the last
gate's time. -/
theorem sorted_time_le_getLast? :
    ∀ (s : List CGate), List.Sorted (fun a b : CGate => a.time ≤ b.time) s →
      ∀ g ∈ s, ∀ x ∈ s.getLast?, g.time ≤ x.time := by
  intro s
  induction s with
  | nil => intro _ g hg; cases hg
  | cons a t ih =>
      intro hs g hg x hx
      cases t with
      | nil =>
          simp only [List.getLast?_singleton, Option.mem_def, Option.some.injEq] at hx
          simp only [List.mem_singleton] at hg
          subst hg
          subst hx
          exact le_refl _
      | cons b t' =>
          rw [List.getLast?_cons_cons] at hx
          rcases List.mem_cons.mp hg with rfl | hg'
          · have hxm : x ∈ b :: t' := by
              rcases List.mem_getLast?_eq_getLast hx with ⟨hne, rfl⟩
              exact List.getLast_mem hne
            exact (List.sorted_cons.mp hs).1 x hxm
          · exact ih (List.sorted_cons.mp hs).2 g hg' x hx

/-- The default window start is a lower bound for every gate time. -/
theorem default_tmin_le (c : Circuit) (g : CGate) (hg : g ∈ c.gates) :
    default_tmin c ≤ g.time := by
  have hs := sort_gates_sorted c.gates
  have hmem : g ∈ sort_gates c.gates := (sort_gates_perm c.gates).mem_iff.mpr hg
  unfold default_tmin
  cases hsg : sort_gates c.gates with
  | nil => rw [hsg] at hmem; cases hmem
  | cons a t =>
      rw [hsg] at hmem hs
      simp only [List.head?_cons, Option.map_some', Option.getD_some]
      rcases List.mem_cons.mp hmem with rfl | hg'
      · exact le_refl _
      · exact (List.sorted_cons.mp hs).1 g hg'

/-- The default window end is an upper bound for every gate time. -/
theorem le_default_tmax (c : Circuit) (g : CGate) (hg : g ∈ c.gates) :
    g.time ≤ default_tmax c := by
  have hs := sort_gates_sorted c.gates
  have hmem : g ∈ sort_gates c.gates := (sort_gates_perm c.gates).mem_iff.mpr hg
  have hne : sort_gates c.gates ≠ [] := by
    intro h0
    rw [h0] at hmem
    cases hmem
  unfold default_tmax
  rw [List.getLast?_eq_getLast_of_ne_nil hne]
  simp only [Option.map_some', Option.getD_some]
  exact sorted_time_le_getLast? _ hs g hmem _
    (by rw [List.getLast?_eq_getLast_of_ne_nil hne]; rfl)

/-- The default window start is attained by some gate of the circuit. -/
theorem default_tmin_mem (c : Circuit) (h : c.gates ≠ []) :
    ∃ g ∈ c.gates, g.time = default_tmin c := by
  have hperm := sort_gates_perm c.gates
  have hne : sort_gates c.gates ≠ [] := by
    intro h0
    apply h
    have h2 : List.Perm ([] : List CGate) c.gates := h0 ▸ hperm
    exact h2.nil_eq.symm
  cases hsg : sort_gates c.gates with
  | nil => exact absurd hsg hne
  | cons a t =>
      refine ⟨a, hperm.mem_iff.mp (by rw [hsg]; exact List.mem_cons_self a t), ?_⟩
      unfold default_tmin
      rw [hsg]
      simp

/-- The default window end is attained by some gate of the circuit. -/
theorem default_tmax_mem (c : Circuit) (h : c.gates ≠ []) :
    ∃ g ∈ c.gates, g.time = default_tmax c := by
  have hperm := sort_gates_perm c.gates
  have hne : sort_gates c.gates ≠ [] := by
    intro h0
    apply h
    have h2 : List.Perm ([] : List CGate) c.gates := h0 ▸ hperm
    exact h2.nil_eq.symm
  refine ⟨(sort_gates c.gates).getLast hne,
    hperm.mem_iff.mp (List.getLast_mem hne), ?_⟩
  unfold default_tmax
  rw [List.getLast?_eq_getLast_of_ne_nil hne]
  simp

/-- C6 (amended): when tmin (respectively tmax) is not supplied,
add_waiting_gates defaults it to the earliest (respectively latest) gate time
across ALL gates of the circuit, not just the gates of the relevant qubits. -/
theorem c6_default_window_amended (c : Circuit) (oq : Option (List String))
    (h : c.gates ≠ []) :
    add_waiting_gates c none none oq
      = add_waiting_gates c (some (default_tmin c)) (some (default_tmax c)) oq
    ∧ (∀ g ∈ c.gates, default_tmin c ≤ g.time ∧ g.time ≤ default_tmax c)
    ∧ (∃ g ∈ c.gates, g.time = default_tmin c)
    ∧ (∃ g ∈ c.gates, g.time = default_tmax c) := by
  refine ⟨?_, fun g hg => ⟨default_tmin_le c g hg, le_default_tmax c g hg⟩,
    default_tmin_mem c h, default_tmax_mem c h⟩
  have hne : sort_gates c.gates ≠ [] := by
    intro h0
    apply h
    have h2 : List.Perm ([] : List CGate) c.gates := h0 ▸ sort_gates_perm c.gates
    exact h2.nil_eq.symm
  simp [add_waiting_gates, List.isEmpty_iff, hne]

/-- The circuit refuting the claimed window defaults: qubit A has finite
coherence times and its only gate is at time 5, while qubit B (infinite
coherence, hence not relevant) owns the earliest gate of the circuit at time 0. -/
def c6_example_circuit : Circuit :=
  ⟨[Qubit.make ("A") (some 100) (some 200), Qubit.make ("B") none none],
   [⟨0, [("B")], GateKind.unitary⟩, ⟨5, [("A")], GateKind.unitary⟩]⟩

/-- C6 counterexample: on c6_example_circuit the code defaults the window to
[0, 5] (times over all gates) and appends one damping gate before qubit A's
gate, while defaulting over the relevant qubits' gates alone, as the claim
states, would give the window [5, 5] and append nothing; the two results
differ. -/
theorem c6_default_window_counterexample :
    (add_waiting_gates c6_example_circuit none none none).gates.length = 3
    ∧ (add_waiting_gates_claimed c6_example_circuit none none none).gates.length = 2
    ∧ add_waiting_gates c6_example_circuit none none none
        ≠ add_waiting_gates_claimed c6_example_circuit none none none := by
  have hAB : ¬ (("A" : String) = ("B" : String)) := by decide
  have hBA : ¬ (("B" : String) = ("A" : String)) := by decide
  have h3 : (add_waiting_gates c6_example_circuit none none none).gates.length = 3 := by
    norm_num [c6_example_circuit, add_waiting_gates, sort_gates, List.insertionSort,
      List.orderedInsert, default_tmin, default_tmax, gates_in_window,
      waiting_gates_for, Qubit.make, CGate.mkAmpPhDamp, List.filter_cons, hAB, hBA]
  have h2 : (add_waiting_gates_claimed c6_example_circuit none none none).gates.length
      = 2 := by
    norm_num [c6_example_circuit, add_waiting_gates_claimed, sort_gates,
      List.insertionSort, List.orderedInsert, gates_in_window, waiting_gates_for,
      Qubit.make, CGate.mkAmpPhDamp, List.filter_cons, hAB, hBA]
  refine ⟨h3, h2, fun heq => ?_⟩
  rw [heq, h2] at h3
  exact absurd h3 (by norm_num)

/-- Witness for C6 (amended), instantiated on c6_example_circuit. -/
theorem c6_default_window_amended_witness :
    (add_waiting_gates c6_example_circuit none none none
      = add_waiting_gates c6_example_circuit
          (some (default_tmin c6_example_circuit))
          (some (default_tmax c6_example_circuit)) none)
    ∧ (∀ g ∈ c6_example_circuit.gates,
        default_tmin c6_example_circuit ≤ g.time
          ∧ g.time ≤ default_tmax c6_example_circuit)
    ∧ (∃ g ∈ c6_example_circuit.gates, g.time = default_tmin c6_example_circuit)
    ∧ (∃ g ∈ c6_example_circuit.gates, g.time = default_tmax c6_example_circuit) :=
  c6_default_window_amended c6_example_circuit none (by simp [c6_example_circuit])

/-- Consecutive-pair membership in a strictly increasing list: (m, n) is a
consecutive pair iff both are members, m < n, and no member lies strictly
between them. -/
theorem zip_tail_mem_iff :
    ∀ (l : List ℕ), l.Pairwise (· < ·) → ∀ m n : ℕ,
      ((m, n) ∈ l.zip l.tail ↔
        m ∈ l ∧ n ∈ l ∧ m < n ∧ ∀ k ∈ l, ¬(m < k ∧ k < n)) := by
  intro l
  induction l with
  | nil => intro _ m n; simp
  | cons a t ih =>
      intro hp m n
      cases t with
      | nil =>
          simp
          omega
      | cons b t' =>
          obtain ⟨ha, hp'⟩ := List.pairwise_cons.mp hp
          obtain ⟨hb, hp''⟩ := List.pairwise_cons.mp hp'
          simp only [List.tail_cons, List.zip_cons_cons]
          constructor
          · intro hmem
            rcases List.mem_cons.mp hmem with heq | hmem'
            · obtain ⟨h1, h2⟩ := Prod.ext_iff.mp heq
              dsimp only at h1 h2
              subst h1
              subst h2
              refine ⟨List.mem_cons_self _ _,
                List.mem_cons.mpr (Or.inr (List.mem_cons_self n t')),
                ha n (List.mem_cons_self n t'), ?_⟩
              intro k hk hcon
              obtain ⟨hmk, hkn⟩ := hcon
              rcases List.mem_cons.mp hk with rfl | hk'
              · exact lt_irrefl _ hmk
              · rcases List.mem_cons.mp hk' with rfl | hk''
                · exact lt_irrefl _ hkn
                · exact absurd hkn (not_lt.mpr (le_of_lt (hb k hk'')))
            · obtain ⟨hm, hn, hmn, hgap⟩ := (ih hp' m n).mp hmem'
              refine ⟨List.mem_cons.mpr (Or.inr hm), List.mem_cons.mpr (Or.inr hn),
                hmn, ?_⟩
              intro k hk hcon
              rcases List.mem_cons.mp hk with rfl | hk'
              · exact absurd hcon.1 (not_lt.mpr (le_of_lt (ha m hm)))
              · exact hgap k hk' hcon
          · rintro ⟨hm, hn, hmn, hgap⟩
            rcases List.mem_cons.mp hm with rfl | hm'
            · have hn' : n ∈ b :: t' := by
                rcases List.mem_cons.mp hn with rfl | hn''
                · exact absurd hmn (lt_irrefl _)
                · exact hn''
              have hnb : n = b := by
                rcases List.mem_cons.mp hn' with rfl | hn''
                · rfl
                · exact absurd ⟨ha b (List.mem_cons_self b t'), hb n hn''⟩
                    (hgap b (List.mem_cons.mpr (Or.inr (List.mem_cons_self b t'))))
              subst hnb
              exact List.mem_cons_self _ _
            · have hn' : n ∈ b :: t' := by
                rcases List.mem_cons.mp hn with rfl | hn''
                · exact absurd hmn (not_lt.mpr (le_of_lt (ha m hm')))
                · exact hn''
              refine List.mem_cons.mpr (Or.inr ((ih hp' m n).mpr ⟨hm', hn', hmn, ?_⟩))
              intro k hk
              exact hgap k (List.mem_cons.mpr (Or.inr hk))

/-- A position is in a qubit's index list iff the sorted gate at that position
involves the qubit. -/
theorem mem_qubit_gate_idx (c : Circuit) (name : String) (k : ℕ) :
    k ∈ qubit_gate_idx c name ↔ involves_at c k name = true := by
  unfold qubit_gate_idx
  rw [List.mem_filter, List.mem_range]
  constructor
  · rintro ⟨-, h⟩
    exact h
  · intro h
    refine ⟨?_, h⟩
    unfold involves_at at h
    cases hk : (sort_gates c.gates)[k]? with
    | none => rw [hk] at h; cases h
    | some g => exact (List.getElem?_eq_some_iff.mp hk).1

/-- A qubit's index list is strictly increasing. -/
theorem qubit_gate_idx_pairwise (c : Circuit) (name : String) :
    (qubit_gate_idx c name).Pairwise (· < ·) :=
  (List.pairwise_lt_range _).filter _

/-- C9: in the graph handed to the topological sort by order(), a dependency
edge (m, n) exists iff some qubit of the circuit is involved in the time-sorted
gates at positions m and n with m earlier than n and in no position strictly
between them (each gate depends on the previous gate of each of its qubits and
on nothing else), and the high-priority set passed alongside is exactly the set
of positions of measurement gates. -/
theorem c9_order_dependency_graph (c : Circuit) (m n : ℕ) :
    ((m, n) ∈ (greedy_toposort_input c).1 ↔
      ∃ b ∈ c.qubits, m < n
        ∧ involves_at c m b.name = true ∧ involves_at c n b.name = true
        ∧ ∀ k, m < k → k < n → involves_at c k b.name = false)
    ∧ (∀ j, j ∈ (greedy_toposort_input c).2 ↔
        ∃ g, (sort_gates c.gates)[j]? = some g ∧ g.is_measurement = true) := by
  constructor
  · show (m, n) ∈ dep_edges c ↔ _
    unfold dep_edges
    rw [List.mem_flatMap]
    constructor
    · rintro ⟨b, hbmem, hpair⟩
      obtain ⟨hm, hn, hmn, hgap⟩ :=
        (zip_tail_mem_iff _ (qubit_gate_idx_pairwise c b.name) m n).mp hpair
      refine ⟨b, hbmem, hmn, (mem_qubit_gate_idx c b.name m).mp hm,
        (mem_qubit_gate_idx c b.name n).mp hn, ?_⟩
      intro k hmk hkn
      cases hinv : involves_at c k b.name
      · rfl
      · exact absurd ⟨hmk, hkn⟩
          (hgap k ((mem_qubit_gate_idx c b.name k).mpr hinv))
    · rintro ⟨b, hbmem, hmn, hm, hn, hgap⟩
      refine ⟨b, hbmem,
        (zip_tail_mem_iff _ (qubit_gate_idx_pairwise c b.name) m n).mpr
          ⟨(mem_qubit_gate_idx c b.name m).mpr hm,
           (mem_qubit_gate_idx c b.name n).mpr hn, hmn, ?_⟩⟩
      intro k hk hcon
      have hkt := (mem_qubit_gate_idx c b.name k).mp hk
      rw [hgap k hcon.1 hcon.2] at hkt
      cases hkt
  · intro j
    show j ∈ measurement_idx c ↔ _
    unfold measurement_idx
    rw [List.mem_filter, List.mem_range]
    constructor
    · rintro ⟨hlt, hmatch⟩
      cases hj : (sort_gates c.gates)[j]? with
      | none =>
          rw [hj] at hmatch
          simp at hmatch
      | some g =>
          rw [hj] at hmatch
          exact ⟨g, rfl, hmatch⟩
    · rintro ⟨g, hj, hmeas⟩
      refine ⟨(List.getElem?_eq_some_iff.mp hj).1, ?_⟩
      rw [hj]
      exact hmeas
